import Mathlib

/-!
Verification of the diffusion-pipeline orchestration script
`client/stable_diffusion.py` (class StableDiffusion, functions main and
run_stable_diffusion).

Modelling conventions:

* A numpy ndarray value is modelled by the inductive type NDArr: a tree of
  rationals.  Python floats are modelled by exact rationals; the only
  floating-point operation whose value is not rational, the square root in
  the LMS input scaling (`(sigma**2 + 1) ** 0.5`), is supplied by the
  environment as an abstract function, since no property proved here
  depends on its value.
* The three pretrained networks (text encoder, unet, vae decoder), the
  tokenizer's raw encoding, the scheduler and the HTTP endpoint are
  external components; they appear as function-valued fields of an
  environment structure.  Fallible external calls return Except: an
  `Except.error` models an uncaught Python exception propagating out of
  the call.
* The helper `result(var) = next(iter(var.values()))` merely extracts the
  single output tensor of an inference request; the environment functions
  model the composition `result(model.infer_new_request(...))` directly.
* The stateful `requests.put` call is modelled by a function that is also
  given the index of the loop iteration performing the call, standing for
  the state of the external network at that moment; the successful run
  additionally records the list of attempted PUT calls (url and
  generated_percent payload) so that the reporting side effect is
  observable.
-/

/-- Model of a numpy ndarray value: a finitely branching tree whose leaves
are rational scalars. -/
inductive NDArr where
  | scalar : ℚ → NDArr
  | arr : List NDArr → NDArr

mutual
/-- Elementwise application of a scalar function, modelling numpy's
broadcasting of unary operations and scalar arithmetic. -/
def mapA (f : ℚ → ℚ) : NDArr → NDArr
  | .scalar q => .scalar (f q)
  | .arr xs => .arr (mapList f xs)

/-- List worker of mapA. -/
def mapList (f : ℚ → ℚ) : List NDArr → List NDArr
  | [] => []
  | x :: xs => mapA f x :: mapList f xs
end

mutual
/-- Elementwise combination of two same-shaped arrays with a binary scalar
function, modelling numpy's elementwise binary operations (the fallback
cases for mismatched shapes are never reached on the shapes the script
produces). -/
def zipA (f : ℚ → ℚ → ℚ) : NDArr → NDArr → NDArr
  | .scalar a, .scalar b => .scalar (f a b)
  | .arr xs, .arr ys => .arr (zipList f xs ys)
  | .scalar a, .arr _ => .scalar a
  | .arr xs, .scalar _ => .arr xs

/-- List worker of zipA. -/
def zipList (f : ℚ → ℚ → ℚ) : List NDArr → List NDArr → List NDArr
  | [], _ => []
  | _ :: _, [] => []
  | x :: xs, y :: ys => zipA f x y :: zipList f xs ys
end

mutual
/-- Every scalar stored anywhere in the array satisfies p. -/
def AllScalars (p : ℚ → Prop) : NDArr → Prop
  | .scalar q => p q
  | .arr xs => AllScalarsList p xs

/-- List worker of AllScalars. -/
def AllScalarsList (p : ℚ → Prop) : List NDArr → Prop
  | [] => True
  | x :: xs => AllScalars p x ∧ AllScalarsList p xs
end

/-- Elementwise addition (numpy +). -/
def addA (a b : NDArr) : NDArr := zipA (fun x y => x + y) a b

/-- Elementwise subtraction (numpy -). -/
def subA (a b : NDArr) : NDArr := zipA (fun x y => x - y) a b

/-- Multiplication of every element by a scalar (numpy scalar *). -/
def smulA (c : ℚ) (a : NDArr) : NDArr := mapA (fun v => c * v) a

/-- Models numpy `np.stack([a, a], 0)`: a new leading axis holding two
copies of the array. -/
def stack2 (a : NDArr) : NDArr := .arr [a, a]

/-- Models numpy `np.expand_dims(a, 0)`. -/
def expandDims0 (a : NDArr) : NDArr := .arr [a]

/-- Models numpy `np.concatenate((a, b), axis=0)` (on arrays; the scalar
fallbacks are never reached on the shapes the script produces). -/
def concat0 : NDArr → NDArr → NDArr
  | .arr xs, .arr ys => .arr (xs ++ ys)
  | .arr xs, .scalar _ => .arr xs
  | .scalar a, _ => .scalar a

/-- Indexing along the leading axis, `a[k]`; out-of-range and
scalar-indexing cases yield the empty array (numpy would raise, but no
property proved here depends on those cases). -/
def idx : NDArr → ℕ → NDArr
  | .scalar _, _ => .arr []
  | .arr xs, k => xs.getD k (.arr [])

/-- Length of the leading axis, `a.shape[0]` (0 for a scalar). -/
def dim : NDArr → ℕ
  | .scalar _ => 0
  | .arr xs => xs.length

/-- The list of subarrays along the leading axis. -/
def items : NDArr → List NDArr
  | .scalar _ => []
  | .arr xs => xs

/-- Models `a.transpose(1, 2, 0)` on a 3-dimensional array laid out
channel-first: output index [i][j][k] reads input index [k][i][j]. -/
def transpose120 (a : NDArr) : NDArr :=
  .arr ((List.range (dim (idx a 0))).map fun i =>
    .arr ((List.range (dim (idx (idx a 0) 0))).map fun j =>
      .arr ((items a).map fun c => idx (idx c i) j)))

/-- Models `a[:, :, ::-1]` on a 3-dimensional array: reverse the last
axis. -/
def revLast3 : NDArr → NDArr
  | .arr rows =>
      .arr (rows.map fun r =>
        match r with
        | .arr cols =>
            .arr (cols.map fun pix =>
              match pix with
              | .arr cs => .arr cs.reverse
              | x => x)
        | x => x)
  | x => x

/-- Conversion of one nonnegative float to uint8 as performed by numpy
`astype(np.uint8)`: truncation toward zero (the values the script converts
are in [0, 255], where no wraparound occurs). -/
def uint8val (v : ℚ) : ℕ := Int.toNat ⌊v⌋

/-- Models `a.astype(np.uint8)` on the nonnegative arrays the script
produces. -/
def uint8A (a : NDArr) : NDArr := mapA (fun v => (uint8val v : ℚ)) a

/-- Models numpy `a.clip(lo, hi)`. -/
def clipA (lo hi : ℚ) (a : NDArr) : NDArr := mapA (fun v => min (max v lo) hi) a

/-- Models Python's built-in round applied to an exact rational:
round-half-to-even (banker's rounding). -/
def pythonRound (x : ℚ) : ℤ :=
  if x - ⌊x⌋ < 1/2 then ⌊x⌋
  else if x - ⌊x⌋ > 1/2 then ⌊x⌋ + 1
  else if ⌊x⌋ % 2 = 0 then ⌊x⌋ else ⌊x⌋ + 1

/-- The percent value computed by the loop body,
`percent = (i / num_inference_steps) * 100` (Python true division). -/
def percentDone (num_inference_steps i : ℕ) : ℚ :=
  ((i : ℚ) / (num_inference_steps : ℚ)) * 100

/-- The integer sent as generated_percent in the progress report,
`round(percent)`. -/
def reportedPercent (num_inference_steps i : ℕ) : ℤ :=
  pythonRound (percentDone num_inference_steps i)

/-- The URL of the per-iteration progress report,
`f"{server}/prompt/{next_prompt['id']}?token={token}"`. -/
def putUrl (server : String) (pid : ℕ) (token : String) : String :=
  server ++ "/prompt/" ++ toString pid ++ "?token=" ++ token

/-- A record of one attempted `requests.put` progress report. -/
structure PutCall where
  url : String
  generated_percent : ℤ
deriving DecidableEq

/-- Errors thrown by external components (network, inference runtime);
the payload is the exception message. -/
abbrev Err := String

/-- Model of the CLIPTokenizer handle: its declared model_max_length, its
raw encoding of a string to token ids, and its padding token. -/
structure TokenizerModel where
  model_max_length : ℕ
  encode : String → List ℕ
  pad_token_id : ℕ

/-- Modelled behaviour of the external tokenizer call
`self.tokenizer(prompt, padding="max_length",
max_length=self.tokenizer.model_max_length, truncation=True).input_ids`:
the raw encoding is truncated to model_max_length and then padded with the
padding token up to model_max_length. -/
def tokenizerCall (tk : TokenizerModel) (s : String) : List ℕ :=
  let truncated := (tk.encode s).take tk.model_max_length
  truncated ++ List.replicate (tk.model_max_length - truncated.length) tk.pad_token_id

/-- Models `np.array([tokens])`: the token batch of size one fed to the
text encoder. -/
def tokensNDArr (tk : TokenizerModel) (s : String) : NDArr :=
  .arr [.arr ((tokenizerCall tk s).map fun n : ℕ => NDArr.scalar (n : ℚ))]

/-- The data the scheduler exposes after set_timesteps. -/
structure SchedulerData where
  timesteps : List ℤ
  sigmas : List ℚ

/-- Model of the scheduler object: the declared parameter names of its
set_timesteps and step methods (what `inspect.signature(...).parameters`
reports), whether it is an instance of LMSDiscreteScheduler, and its two
methods.  The second argument of set_timesteps is the optional offset
keyword; the second argument of step is either a step index (Sum.inl) or a
raw timestep value (Sum.inr); the last argument of step is the optional
eta keyword. -/
structure Scheduler where
  set_timesteps_param_names : List String
  step_param_names : List String
  isLMS : Bool
  set_timesteps : ℕ → Option ℕ → SchedulerData
  step : NDArr → ℕ ⊕ ℤ → NDArr → Option ℚ → NDArr

/-- The `extra_set_kwargs` computed by introspection:
`accepts_offset = "offset" in set(inspect.signature(
self.scheduler.set_timesteps).parameters.keys())`, and offset=1 is passed
iff accepted. -/
def offsetKwarg (sch : Scheduler) : Option ℕ :=
  if "offset" ∈ sch.set_timesteps_param_names then some 1 else none

/-- The `extra_step_kwargs` computed by introspection: eta is passed to
step iff "eta" is among the declared parameters of step. -/
def etaKwarg (sch : Scheduler) (eta : ℚ) : Option ℚ :=
  if "eta" ∈ sch.step_param_names then some eta else none

/-- The second argument the loop passes to scheduler.step: the step index
i when the scheduler is an LMSDiscreteScheduler instance, the raw
timestep t otherwise (an isinstance check in the source). -/
def schedTimeArg (sch : Scheduler) (i : ℕ) (t : ℤ) : ℕ ⊕ ℤ :=
  if sch.isLMS then Sum.inl i else Sum.inr t

/-- The environment of one StableDiffusion instance: the tokenizer, the
scheduler, the three compiled networks, the ambient numpy RNG, the float
square root, the network endpoint, and the outcome of the downloads and
compilations performed by __init__. -/
structure SDEnv where
  tokenizer : TokenizerModel
  scheduler : Scheduler
  text_encoder : NDArr → Except Err NDArr
  unet : NDArr → ℤ → NDArr → Except Err NDArr
  vae : NDArr → Except Err NDArr
  randn : Option ℕ → NDArr
  fsqrt : ℚ → ℚ
  httpPut : ℕ → String → ℤ → Except Err Unit
  loadOk : Except Err Unit

/-- The text-conditioning phase of __call__: embed the padded prompt
tokens; when guidance_scale > 1.0 also embed the empty string and
concatenate the two embeddings along the batch axis, unconditional
first. -/
def computeTextEmbeddings (env : SDEnv) (prompt : String) (guidance_scale : ℚ) :
    Except Err NDArr :=
  match env.text_encoder (tokensNDArr env.tokenizer prompt) with
  | .error e => .error e
  | .ok text_embeddings =>
    if guidance_scale > 1 then
      match env.text_encoder (tokensNDArr env.tokenizer "") with
      | .error e => .error e
      | .ok uncond_embeddings => .ok (concat0 uncond_embeddings text_embeddings)
    else .ok text_embeddings

/-- The `latent_model_input` of one iteration before scheduler-specific
scaling: `np.stack([latents, latents], 0) if guidance_scale > 1.0 else
latents`. -/
def latentModelInput (guidance_scale : ℚ) (latents : NDArr) : NDArr :=
  if guidance_scale > 1 then stack2 latents else latents

/-- The scheduler-specific input scaling of one iteration: for an
LMSDiscreteScheduler, division by `(sigma**2 + 1) ** 0.5` with
`sigma = self.scheduler.sigmas[i]`. -/
def scaledInput (env : SDEnv) (sigmas : List ℚ) (i : ℕ) (lmi : NDArr) : NDArr :=
  if env.scheduler.isLMS then
    mapA (fun v => v / env.fsqrt ((sigmas.getD i 0) ^ 2 + 1)) lmi
  else lmi

/-- The classifier-free-guidance combination applied to the raw denoiser
output: `noise_pred[0] + guidance_scale * (noise_pred[1] - noise_pred[0])`
when guidance_scale > 1.0, the raw output unchanged otherwise. -/
def guidedNoisePred (guidance_scale : ℚ) (noise_pred : NDArr) : NDArr :=
  if guidance_scale > 1 then
    addA (idx noise_pred 0) (smulA guidance_scale (subA (idx noise_pred 1) (idx noise_pred 0)))
  else noise_pred

/-- The sampling loop of __call__, iterating over
`enumerate(self.scheduler.timesteps)`.  Each iteration scales the
(optionally duplicated) latent, runs the denoiser, sends the progress
report, applies the guidance combination and advances the latent through
scheduler.step.  A failing external call propagates as the final result
(an uncaught exception); a successful run also returns the attempted PUT
calls in order. -/
def sdLoop (env : SDEnv) (guidance_scale eta : ℚ) (num_inference_steps : ℕ)
    (server token : String) (pid : ℕ) (text_embeddings : NDArr) (sigmas : List ℚ) :
    List (ℕ × ℤ) → NDArr → Except Err (NDArr × List PutCall)
  | [], latents => .ok (latents, [])
  | (i, t) :: rest, latents =>
    match env.unet (scaledInput env sigmas i (latentModelInput guidance_scale latents))
        t text_embeddings with
    | .error e => .error e
    | .ok noise_pred =>
      match env.httpPut i (putUrl server pid token) (reportedPercent num_inference_steps i) with
      | .error e => .error e
      | .ok _ =>
        match sdLoop env guidance_scale eta num_inference_steps server token pid
            text_embeddings sigmas rest
            (env.scheduler.step (guidedNoisePred guidance_scale noise_pred)
              (schedTimeArg env.scheduler i t) latents (etaKwarg env.scheduler eta)) with
        | .error e => .error e
        | .ok (lat, calls) =>
          .ok (lat, ⟨putUrl server pid token, reportedPercent num_inference_steps i⟩ :: calls)

/-- The decoding and post-processing of the final latent's decoder output:
`image = (image / 2 + 0.5).clip(0, 1)` then
`image = (image[0].transpose(1, 2, 0)[:, :, ::-1] * 255).astype(np.uint8)`. -/
def decodeImage (image : NDArr) : NDArr :=
  let image1 := clipA 0 1 (mapA (fun v => v / 2 + 1/2) image)
  uint8A (mapA (fun v => v * 255) (revLast3 (transpose120 (idx image1 0))))

/-- The body of StableDiffusion.__call__: text conditioning, initial
latents from the ambient RNG, scheduler configuration via introspected
kwargs, LMS sigma scaling of the initial latents, the sampling loop, and
decoding.  The seed argument records whether and how np.random.seed was
called before the pipeline ran. -/
def callSD (env : SDEnv) (prompt : String) (num_inference_steps : ℕ)
    (guidance_scale eta : ℚ) (server token : String) (pid : ℕ) (seed : Option ℕ) :
    Except Err (NDArr × List PutCall) :=
  match computeTextEmbeddings env prompt guidance_scale with
  | .error e => .error e
  | .ok text_embeddings =>
    let latents := env.randn seed
    let sched := env.scheduler.set_timesteps num_inference_steps (offsetKwarg env.scheduler)
    let latents := if env.scheduler.isLMS then smulA (sched.sigmas.getD 0 0) latents else latents
    match sdLoop env guidance_scale eta num_inference_steps server token pid
        text_embeddings sched.sigmas sched.timesteps.enum latents with
    | .error e => .error e
    | .ok (lat, calls) =>
      match env.vae (expandDims0 lat) with
      | .error e => .error e
      | .ok image => .ok (decodeImage image, calls)

/-- The standalone entry point main(args): seed the RNG if a seed was
given, construct the pipeline (model loading), run it with the
command-line parameters and the default server="", token="",
next_prompt={"id": 0}, and write the image to args.output.  The result is
the list of files written paired with the attempted progress reports; an
error models the process dying on an uncaught exception with no file
written. -/
structure MainArgs where
  prompt : String
  num_inference_steps : ℕ
  guidance_scale : ℚ
  eta : ℚ
  seed : Option ℕ
  output : String

/-- Model of main(args). -/
def mainRun (env : SDEnv) (args : MainArgs) :
    Except Err (List (String × NDArr) × List PutCall) :=
  match env.loadOk with
  | .error e => .error e
  | .ok _ =>
    match callSD env args.prompt args.num_inference_steps args.guidance_scale
        args.eta "" "" 0 args.seed with
    | .error e => .error e
    | .ok (image, calls) => .ok ([(args.output, image)], calls)

/-- Model of run_stable_diffusion(prompt, iterations, seed, output,
server, token, next_prompt): always seeds the process RNG with the given
seed, constructs the pipeline, and calls it with guidance_scale=7.5 and
eta=0.0 regardless of caller input. -/
def runStableDiffusion (env : SDEnv) (prompt : String) (iterations : ℕ)
    (seed : ℕ) (output server token : String) (pid : ℕ) :
    Except Err (List (String × NDArr) × List PutCall) :=
  match env.loadOk with
  | .error e => .error e
  | .ok _ =>
    match callSD env prompt iterations (7.5 : ℚ) 0 server token pid (some seed) with
    | .error e => .error e
    | .ok (image, calls) => .ok ([(output, image)], calls)

/-- Concrete tokenizer used to witness the theorems. -/
def tokW : TokenizerModel := ⟨3, fun _ => [5, 6], 0⟩

/-- Concrete scheduler used to witness the theorems: declares offset and
eta, is an LMSDiscreteScheduler instance, yields one timestep per
requested inference step, and has an identity step rule. -/
def schedW : Scheduler :=
  ⟨["num_inference_steps", "offset"], ["model_output", "timestep", "sample", "eta"],
   true, fun n _ => ⟨List.replicate n 7, List.replicate (n + 1) 1⟩,
   fun _ _ lat _ => lat⟩

/-- Concrete text-encoder output of batch size one. -/
def embW : NDArr := .arr [.scalar 2]

/-- Concrete decoder output channel: one row, two columns. -/
def chW : NDArr := .arr [.arr [.scalar 0, .scalar 2]]

/-- Concrete decoder output: one batch entry holding three channels. -/
def imgW : NDArr := .arr [.arr [chW, chW, chW]]

/-- Concrete environment in which every external call succeeds. -/
def envW : SDEnv :=
  ⟨tokW, schedW, fun _ => .ok embW, fun lmi _ _ => .ok lmi, fun _ => .ok imgW,
   fun _ => .scalar 0, fun q => q, fun _ _ _ => .ok (), .ok ()⟩

/-- Environment whose model loading fails. -/
def envLoadErr : SDEnv := { envW with loadOk := .error "load failed" }

/-- Environment whose text-encoder forward pass fails. -/
def envEncErr : SDEnv := { envW with text_encoder := fun _ => .error "infer failed" }

/-- The unet input of the guided witness iteration. -/
def npW : NDArr := scaledInput envW [1] 0 (stack2 (.scalar 0))

/-- The unet input of the unguided witness iteration. -/
def npW1 : NDArr := scaledInput envW [1] 0 (.scalar 0)

/-- A scheduler that declares offset and eta and is an
LMSDiscreteScheduler instance. -/
def schedIntroA : Scheduler :=
  ⟨["num_inference_steps", "offset"], ["model_output", "timestep", "sample", "eta"],
   true, fun _ _ => ⟨[], []⟩, fun _ _ lat _ => lat⟩

/-- A scheduler with exactly the same declared parameter names as
schedIntroA that is not an LMSDiscreteScheduler instance. -/
def schedIntroB : Scheduler := { schedIntroA with isLMS := false }

/-- The command-line arguments of the witness run. -/
def argsW : MainArgs := ⟨"a prompt", 1, 1, 0, some 42, "output.png"⟩

/-- The single progress report of the one-step witness run. -/
def callsW : List PutCall := [⟨putUrl "" 0 "", reportedPercent 1 0⟩]

/-- The command-line arguments of the C8 scenario. -/
def args8 : MainArgs := ⟨"a red cube", 2, 1, 0, some 42, "output.png"⟩

/-- The two progress reports of the two-step witness run. -/
def calls8 : List PutCall :=
  [⟨putUrl "" 0 "", reportedPercent 2 0⟩, ⟨putUrl "" 0 "", reportedPercent 2 1⟩]

/-- Induction principle for NDArr that hands the inductive hypothesis to
every member of a subarray list. -/
theorem NDArr.inductionOn (p : NDArr → Prop)
    (hs : ∀ q, p (NDArr.scalar q))
    (ha : ∀ xs, (∀ x ∈ xs, p x) → p (NDArr.arr xs)) :
    ∀ a, p a :=
  fun a =>
    @NDArr.rec p (fun xs => ∀ x ∈ xs, p x)
      hs ha (by simp)
      (fun x xs hx hxs y hy => by
        rcases List.mem_cons.mp hy with h | h
        · exact h ▸ hx
        · exact hxs y h) a

/-- The list worker of mapA agrees with List.map. -/
theorem mapList_eq_map (f : ℚ → ℚ) (xs : List NDArr) :
    mapList f xs = xs.map (mapA f) := by
  induction xs with
  | nil => simp [mapList]
  | cons x xs ih => simp [mapList, ih]

/-- Unfolding mapA on an array node. -/
theorem mapA_arr (f : ℚ → ℚ) (xs : List NDArr) :
    mapA f (.arr xs) = .arr (xs.map (mapA f)) := by
  simp [mapA, mapList_eq_map]

/-- Unfolding mapA on a scalar node. -/
theorem mapA_scalar (f : ℚ → ℚ) (q : ℚ) :
    mapA f (.scalar q) = .scalar (f q) := by
  simp [mapA]

/-- The list worker of AllScalars agrees with membership. -/
theorem allScalarsList_iff (p : ℚ → Prop) (xs : List NDArr) :
    AllScalarsList p xs ↔ ∀ x ∈ xs, AllScalars p x := by
  induction xs with
  | nil => simp [AllScalarsList]
  | cons x xs ih => simp [AllScalarsList, ih]

/-- Unfolding AllScalars on a scalar node. -/
theorem allScalars_scalar (p : ℚ → Prop) (q : ℚ) :
    AllScalars p (.scalar q) ↔ p q := by
  simp [AllScalars]

/-- Unfolding AllScalars on an array node. -/
theorem allScalars_arr (p : ℚ → Prop) (xs : List NDArr) :
    AllScalars p (.arr xs) ↔ ∀ x ∈ xs, AllScalars p x := by
  simp [AllScalars, allScalarsList_iff]

/-- Scalars produced by an elementwise map land in the image of the
mapped function. -/
theorem allScalars_mapA_of (f : ℚ → ℚ) (r : ℚ → Prop)
    (hf : ∀ q, r (f q)) : ∀ a, AllScalars r (mapA f a) := by
  intro a
  induction a using NDArr.inductionOn with
  | hs q => rw [mapA_scalar, allScalars_scalar]; exact hf q
  | ha xs ih =>
    rw [mapA_arr, allScalars_arr]
    intro x hx
    obtain ⟨y, hy, rfl⟩ := List.mem_map.mp hx
    exact ih y hy

/-- Transfer of a scalar invariant through an elementwise map. -/
theorem allScalars_mapA (p r : ℚ → Prop) (f : ℚ → ℚ) (a : NDArr)
    (h : AllScalars p a) (hf : ∀ q, p q → r (f q)) : AllScalars r (mapA f a) := by
  induction a using NDArr.inductionOn with
  | hs q =>
    rw [allScalars_scalar] at h
    rw [mapA_scalar, allScalars_scalar]
    exact hf q h
  | ha xs ih =>
    rw [mapA_arr, allScalars_arr]
    rw [allScalars_arr] at h
    intro x hx
    obtain ⟨y, hy, rfl⟩ := List.mem_map.mp hx
    exact ih y hy (h y hy)

/-- A scalar invariant holding everywhere also holds on any leading-axis
slice. -/
theorem allScalars_idx (p : ℚ → Prop) (a : NDArr) (k : ℕ)
    (h : AllScalars p a) : AllScalars p (idx a k) := by
  cases a with
  | scalar q => simp [idx, allScalars_arr]
  | arr xs =>
    rw [allScalars_arr] at h
    simp only [idx]
    by_cases hk : k < xs.length
    · rw [List.getD_eq_getElem xs _ hk]
      exact h _ (List.getElem_mem hk)
    · rw [List.getD_eq_default xs _ (Nat.le_of_not_lt hk)]
      simp [allScalars_arr]

/-- A scalar invariant holding everywhere holds on every leading-axis
member. -/
theorem allScalars_items (p : ℚ → Prop) (a : NDArr)
    (h : AllScalars p a) : ∀ c ∈ items a, AllScalars p c := by
  cases a with
  | scalar q => simp [items]
  | arr xs => rw [allScalars_arr] at h; simpa [items] using h

/-- A scalar invariant is preserved by the transpose. -/
theorem allScalars_transpose120 (p : ℚ → Prop) (a : NDArr)
    (h : AllScalars p a) : AllScalars p (transpose120 a) := by
  rw [transpose120, allScalars_arr]
  intro row hrow
  obtain ⟨i, _, rfl⟩ := List.mem_map.mp hrow
  rw [allScalars_arr]
  intro pix hpix
  obtain ⟨j, _, rfl⟩ := List.mem_map.mp hpix
  rw [allScalars_arr]
  intro e he
  obtain ⟨c, hc, rfl⟩ := List.mem_map.mp he
  exact allScalars_idx p _ j (allScalars_idx p _ i (allScalars_items p a h c hc))

/-- A scalar invariant is preserved by reversing the last axis. -/
theorem allScalars_revLast3 (p : ℚ → Prop) (a : NDArr)
    (h : AllScalars p a) : AllScalars p (revLast3 a) := by
  cases a with
  | scalar q => simpa [revLast3] using h
  | arr rows =>
    rw [allScalars_arr] at h
    rw [revLast3, allScalars_arr]
    intro r hr
    obtain ⟨r0, hr0, rfl⟩ := List.mem_map.mp hr
    have hr0' := h r0 hr0
    cases r0 with
    | scalar q => simpa using hr0'
    | arr cols =>
      rw [allScalars_arr] at hr0'
      simp only []
      rw [allScalars_arr]
      intro c hc
      obtain ⟨c0, hc0, rfl⟩ := List.mem_map.mp hc
      have hc0' := hr0' c0 hc0
      cases c0 with
      | scalar q => simpa using hc0'
      | arr cs =>
        rw [allScalars_arr] at hc0'
        simp only []
        rw [allScalars_arr]
        intro e he
        exact hc0' e (List.mem_reverse.mp he)

/-- An elementwise map does not change the leading-axis length. -/
theorem dim_mapA (f : ℚ → ℚ) (a : NDArr) : dim (mapA f a) = dim a := by
  cases a with
  | scalar q => rw [mapA_scalar]; simp [dim]
  | arr xs => rw [mapA_arr]; simp [dim]

/-- Slicing commutes with an elementwise map (the default slice is the
empty array, which the map fixes). -/
theorem idx_mapA (f : ℚ → ℚ) (a : NDArr) (k : ℕ) :
    idx (mapA f a) k = mapA f (idx a k) := by
  cases a with
  | scalar q => rw [mapA_scalar]; simp [idx, mapA_arr]
  | arr xs =>
    rw [mapA_arr]
    simp only [idx]
    by_cases hk : k < xs.length
    · rw [List.getD_eq_getElem _ _ (by simpa using hk), List.getD_eq_getElem xs _ hk]
      simp
    · rw [List.getD_eq_default _ _ (by simpa using Nat.le_of_not_lt hk),
        List.getD_eq_default xs _ (Nat.le_of_not_lt hk)]
      simp [mapA_arr]

/-- Leading-axis members of an elementwise map. -/
theorem items_mapA (f : ℚ → ℚ) (a : NDArr) :
    items (mapA f a) = (items a).map (mapA f) := by
  cases a with
  | scalar q => rw [mapA_scalar]; simp [items]
  | arr xs => rw [mapA_arr]; simp [items]

/-- The leading-axis length is the length of the member list. -/
theorem dim_eq_items_length (a : NDArr) : dim a = (items a).length := by
  cases a <;> simp [dim, items]

/-- Reversing the last axis does not change the leading-axis length. -/
theorem dim_revLast3 (a : NDArr) : dim (revLast3 a) = dim a := by
  cases a <;> simp [revLast3, dim]

/-- getD on a mapped range, in range. -/
theorem getD_range_map {α : Type} (f : ℕ → α) (n i : ℕ) (d : α) (h : i < n) :
    (((List.range n).map f).getD i d) = f i := by
  rw [List.getD_eq_getElem _ _ (by simpa using h)]
  simp

/-- An array of positive leading-axis length 1 is a singleton array. -/
theorem dim_eq_one (a : NDArr) (h : dim a = 1) : ∃ x, a = NDArr.arr [x] := by
  cases a with
  | scalar q => simp [dim] at h
  | arr xs =>
    simp only [dim] at h
    obtain ⟨x, rfl⟩ := List.length_eq_one.mp h
    exact ⟨x, rfl⟩

/-- Python round never decreases as its argument increases. -/
theorem pythonRound_mono {x y : ℚ} (h : x ≤ y) : pythonRound x ≤ pythonRound y := by
  rcases lt_or_eq_of_le (Int.floor_le_floor h : ⌊x⌋ ≤ ⌊y⌋) with hf | hf
  · have h1 : pythonRound x ≤ ⌊x⌋ + 1 := by
      unfold pythonRound; split_ifs <;> omega
    have h2 : ⌊y⌋ ≤ pythonRound y := by
      unfold pythonRound; split_ifs <;> omega
    omega
  · have hfq : ((⌊x⌋ : ℤ) : ℚ) = ((⌊y⌋ : ℤ) : ℚ) := by exact_mod_cast hf
    unfold pythonRound
    split_ifs <;> first | omega | (exfalso; linarith)

/-- Python round of a value at most n is at most n. -/
theorem pythonRound_le_of_le {x : ℚ} {n : ℤ} (h : x ≤ (n : ℚ)) :
    pythonRound x ≤ n := by
  have hfl : ⌊x⌋ ≤ n := by
    have h1 := Int.floor_le_floor h
    simpa using h1
  have hflq : ((⌊x⌋ : ℤ) : ℚ) ≤ x := Int.floor_le x
  unfold pythonRound
  split_ifs with h1 h2 h3
  · exact hfl
  · have : ((⌊x⌋ : ℤ) : ℚ) < (n : ℚ) - 1/2 := by linarith
    have : ((⌊x⌋ : ℤ) : ℚ) < (n : ℚ) := by linarith
    have : ⌊x⌋ < n := by exact_mod_cast this
    omega
  · exact hfl
  · have hx2 : x - ((⌊x⌋ : ℤ) : ℚ) = 1/2 := le_antisymm (not_lt.mp h2) (not_lt.mp h1)
    have : ((⌊x⌋ : ℤ) : ℚ) ≤ (n : ℚ) - 1/2 := by linarith
    have : ((⌊x⌋ : ℤ) : ℚ) < (n : ℚ) := by linarith
    have : ⌊x⌋ < n := by exact_mod_cast this
    omega

/-- Python round of a value below n - 1/2 is below n. -/
theorem pythonRound_lt_of_lt {x : ℚ} {n : ℤ} (h : x < (n : ℚ) - 1/2) :
    pythonRound x < n := by
  have hflq : ((⌊x⌋ : ℤ) : ℚ) ≤ x := Int.floor_le x
  have hfl : ⌊x⌋ < n := by
    have : ((⌊x⌋ : ℤ) : ℚ) < (n : ℚ) := by linarith
    exact_mod_cast this
  unfold pythonRound
  split_ifs with h1 h2 h3
  · exact hfl
  · have : ((⌊x⌋ : ℤ) : ℚ) < (n : ℚ) - 1 := by linarith
    have : ⌊x⌋ < n - 1 := by exact_mod_cast this
    omega
  · exact hfl
  · have hx2 : x - ((⌊x⌋ : ℤ) : ℚ) = 1/2 := le_antisymm (not_lt.mp h2) (not_lt.mp h1)
    have : ((⌊x⌋ : ℤ) : ℚ) < (n : ℚ) - 1 := by linarith
    have : ⌊x⌋ < n - 1 := by exact_mod_cast this
    omega

/-- A successful loop run records exactly one PUT per iteration pair, in
order, each with the fixed report URL and the percent computed from the
iteration index. -/
theorem sdLoop_ok_calls (env : SDEnv) (g eta : ℚ) (N : ℕ)
    (server token : String) (pid : ℕ) (emb : NDArr) (sigmas : List ℚ) :
    ∀ (pairs : List (ℕ × ℤ)) (latents lat : NDArr) (calls : List PutCall),
      sdLoop env g eta N server token pid emb sigmas pairs latents = .ok (lat, calls) →
      calls = pairs.map fun p => ⟨putUrl server pid token, reportedPercent N p.1⟩ := by
  intro pairs
  induction pairs with
  | nil =>
    intro latents lat calls h
    simp only [sdLoop] at h
    cases h
    simp
  | cons p rest ih =>
    intro latents lat calls h
    obtain ⟨i, t⟩ := p
    simp only [sdLoop] at h
    split at h
    · simp at h
    next noise_pred hu =>
      split at h
      · simp at h
      next u hp =>
        split at h
        · simp at h
        next lat2 calls2 hrec =>
          obtain ⟨hl, hc⟩ := (Prod.mk.injEq _ _ _ _).mp (Except.ok.inj h)
          subst hc
          simp [ih _ _ _ hrec]

/-- In a successful loop run every iteration's progress PUT returned
successfully. -/
theorem sdLoop_ok_puts (env : SDEnv) (g eta : ℚ) (N : ℕ)
    (server token : String) (pid : ℕ) (emb : NDArr) (sigmas : List ℚ) :
    ∀ (pairs : List (ℕ × ℤ)) (latents lat : NDArr) (calls : List PutCall),
      sdLoop env g eta N server token pid emb sigmas pairs latents = .ok (lat, calls) →
      ∀ p ∈ pairs, env.httpPut p.1 (putUrl server pid token) (reportedPercent N p.1) = .ok () := by
  intro pairs
  induction pairs with
  | nil => intro latents lat calls _ p hp; cases hp
  | cons q rest ih =>
    intro latents lat calls h p hp
    obtain ⟨i, t⟩ := q
    simp only [sdLoop] at h
    split at h
    · simp at h
    next noise_pred hu =>
      split at h
      · simp at h
      next u hput =>
        split at h
        · simp at h
        next lat2 calls2 hrec =>
          rcases List.mem_cons.mp hp with rfl | hmem
          · cases u; exact hput
          · exact ih _ _ _ hrec p hmem

/-- In a successful loop run every iteration's denoiser forward pass
returned successfully (on some model input built by the loop). -/
theorem sdLoop_ok_unet (env : SDEnv) (g eta : ℚ) (N : ℕ)
    (server token : String) (pid : ℕ) (emb : NDArr) (sigmas : List ℚ) :
    ∀ (pairs : List (ℕ × ℤ)) (latents lat : NDArr) (calls : List PutCall),
      sdLoop env g eta N server token pid emb sigmas pairs latents = .ok (lat, calls) →
      ∀ p ∈ pairs, ∃ lmi np, env.unet lmi p.2 emb = .ok np := by
  intro pairs
  induction pairs with
  | nil => intro latents lat calls _ p hp; cases hp
  | cons q rest ih =>
    intro latents lat calls h p hp
    obtain ⟨i, t⟩ := q
    simp only [sdLoop] at h
    split at h
    · simp at h
    next noise_pred hu =>
      split at h
      · simp at h
      next u hput =>
        split at h
        · simp at h
        next lat2 calls2 hrec =>
          rcases List.mem_cons.mp hp with rfl | hmem
          · exact ⟨_, noise_pred, hu⟩
          · exact ih _ _ _ hrec p hmem

/-- Inversion of a successful callSD run: the embeddings were computed,
the loop ran to completion over the scheduler's enumerated timesteps, the
decoder ran once on the final latent, and the returned image is the
post-processed decoder output. -/
theorem callSD_ok_inv (env : SDEnv) (prompt : String) (N : ℕ)
    (g eta : ℚ) (server token : String) (pid : ℕ) (seed : Option ℕ)
    (image : NDArr) (calls : List PutCall)
    (h : callSD env prompt N g eta server token pid seed = .ok (image, calls)) :
    ∃ emb lat vaeOut,
      computeTextEmbeddings env prompt g = .ok emb ∧
      sdLoop env g eta N server token pid emb
        (env.scheduler.set_timesteps N (offsetKwarg env.scheduler)).sigmas
        (env.scheduler.set_timesteps N (offsetKwarg env.scheduler)).timesteps.enum
        (if env.scheduler.isLMS then
          smulA ((env.scheduler.set_timesteps N (offsetKwarg env.scheduler)).sigmas.getD 0 0)
            (env.randn seed)
         else env.randn seed) = .ok (lat, calls) ∧
      env.vae (expandDims0 lat) = .ok vaeOut ∧
      image = decodeImage vaeOut := by
  simp only [callSD] at h
  split at h
  · simp at h
  next emb hemb =>
    split at h
    · simp at h
    next lat calls2 hloop =>
      split at h
      · simp at h
      next vaeOut hvae =>
        obtain ⟨h3, h4⟩ := (Prod.mk.injEq _ _ _ _).mp (Except.ok.inj h)
        subst h4
        exact ⟨emb, lat, vaeOut, hemb, hloop, hvae, h3.symm⟩

/-- Inversion of a successful mainRun: loading succeeded and the single
written file holds the image callSD returned. -/
theorem mainRun_ok_inv (env : SDEnv) (args : MainArgs)
    (files : List (String × NDArr)) (calls : List PutCall)
    (h : mainRun env args = .ok (files, calls)) :
    env.loadOk = .ok () ∧
    ∃ image, callSD env args.prompt args.num_inference_steps args.guidance_scale
        args.eta "" "" 0 args.seed = .ok (image, calls) ∧
      files = [(args.output, image)] := by
  simp only [mainRun] at h
  split at h
  · simp at h
  next u hload =>
    split at h
    · simp at h
    next image2 calls2 hcall =>
      obtain ⟨h3, h4⟩ := (Prod.mk.injEq _ _ _ _).mp (Except.ok.inj h)
      subst h4
      cases u
      exact ⟨hload, image2, hcall, h3.symm⟩

/-- Unfolding idx on an array node. -/
theorem idx_arr (xs : List NDArr) (k : ℕ) : idx (.arr xs) k = xs.getD k (.arr []) := rfl

/-- Unfolding dim on an array node. -/
theorem dim_arr (xs : List NDArr) : dim (.arr xs) = xs.length := rfl

/-- Reversing the last axis of the transpose yields an explicit
height-by-width-by-channel array. -/
theorem revLast3_transpose120 (b : NDArr) :
    revLast3 (transpose120 b) =
      .arr ((List.range (dim (idx b 0))).map fun i =>
        .arr ((List.range (dim (idx (idx b 0) 0))).map fun j =>
          .arr (((items b).map fun c => idx (idx c i) j).reverse))) := by
  rw [transpose120, revLast3]
  simp [List.map_map, Function.comp]

/-- Fully explicit form of the decoded image: for every output row i and
column j, the pixel is the reversed channel list, every channel value
being the clipped, rescaled and uint8-converted source scalar. -/
theorem decodeImage_explicit (x : NDArr) :
    decodeImage x =
      .arr ((List.range (dim (idx (idx x 0) 0))).map fun i =>
        .arr ((List.range (dim (idx (idx (idx x 0) 0) 0))).map fun j =>
          .arr (((items (idx x 0)).map fun c =>
            mapA (fun v => (uint8val v : ℚ)) (mapA (fun v => v * 255)
              (mapA (fun v => min (max v 0) 1) (mapA (fun v => v / 2 + 1/2)
                (idx (idx c i) j))))).reverse))) := by
  simp only [decodeImage, clipA, uint8A]
  rw [idx_mapA, idx_mapA, revLast3_transpose120]
  simp only [mapA_arr, List.map_map, List.map_reverse, Function.comp_def, idx_mapA,
    dim_mapA, items_mapA]

/-- The decoded image has one row per row of the first channel of the
decoder output. -/
theorem dim_decodeImage (x : NDArr) :
    dim (decodeImage x) = dim (idx (idx x 0) 0) := by
  rw [decodeImage_explicit]
  simp [dim]

/-- Every in-range row of the decoded image has one entry per column of
the first channel of the decoder output. -/
theorem dim_idx_decodeImage (x : NDArr) (i : ℕ) (hi : i < dim (idx (idx x 0) 0)) :
    dim (idx (decodeImage x) i) = dim (idx (idx (idx x 0) 0) 0) := by
  rw [decodeImage_explicit, idx_arr, getD_range_map _ _ _ _ hi]
  simp [dim_arr]

/-- Every in-range pixel of the decoded image has exactly one channel per
channel of the decoder output. -/
theorem dim_idx_idx_decodeImage (x : NDArr) (i j : ℕ)
    (hi : i < dim (idx (idx x 0) 0)) (hj : j < dim (idx (idx (idx x 0) 0) 0)) :
    dim (idx (idx (decodeImage x) i) j) = dim (idx x 0) := by
  rw [decodeImage_explicit, idx_arr, getD_range_map _ _ _ _ hi, idx_arr,
    getD_range_map _ _ _ _ hj]
  simp [dim_eq_items_length, items]

/-- Every scalar of the decoded image is a natural number at most 255. -/
theorem decodeImage_scalars (x : NDArr) :
    AllScalars (fun q => ∃ n : ℕ, q = (n : ℚ) ∧ n ≤ 255) (decodeImage x) := by
  simp only [decodeImage, clipA, uint8A]
  have h1 : AllScalars (fun q => 0 ≤ q ∧ q ≤ 1)
      (mapA (fun v => min (max v 0) 1) (mapA (fun v => v / 2 + 1/2) x)) := by
    apply allScalars_mapA_of
    intro q
    constructor
    · exact le_min (le_max_right q 0) (by norm_num)
    · exact min_le_right _ 1
  have h2 := allScalars_idx _ _ 0 h1
  have h3 := allScalars_transpose120 _ _ h2
  have h4 := allScalars_revLast3 _ _ h3
  have h5 : AllScalars (fun q => 0 ≤ q ∧ q ≤ 255)
      (mapA (fun v => v * 255) (revLast3 (transpose120
        (idx (mapA (fun v => min (max v 0) 1) (mapA (fun v => v / 2 + 1/2) x)) 0)))) := by
    refine allScalars_mapA _ _ _ _ h4 ?_
    intro q hq
    constructor
    · nlinarith [hq.1]
    · nlinarith [hq.2]
  refine allScalars_mapA _ _ _ _ h5 ?_
  intro q hq
  refine ⟨uint8val q, rfl, ?_⟩
  have hfl : ⌊q⌋ ≤ (255 : ℤ) := by
    have := Int.floor_le_floor hq.2
    simpa using this
  simpa [uint8val] using Int.toNat_le.mpr hfl

/-- C1: with guidance_scale <= 1.0 exactly one prompt embedding is used
(batch size 1); with guidance_scale > 1.0 the empty string is also
embedded and the two embeddings are concatenated along the batch axis,
giving exactly 2 batch entries, the unconditional (empty-string) embedding
first and the prompt embedding second.  That each encoder output has batch
size 1 is a property of the external text encoder and enters as a
hypothesis. -/
theorem claim_c1 (env : SDEnv) (prompt : String) (g : ℚ) (ce ue : NDArr)
    (henc : env.text_encoder (tokensNDArr env.tokenizer prompt) = .ok ce)
    (hune : env.text_encoder (tokensNDArr env.tokenizer "") = .ok ue)
    (hdc : dim ce = 1) (hdu : dim ue = 1) :
    (g > 1 → computeTextEmbeddings env prompt g = .ok (concat0 ue ce) ∧
      dim (concat0 ue ce) = 2 ∧ idx (concat0 ue ce) 0 = idx ue 0 ∧
      idx (concat0 ue ce) 1 = idx ce 0) ∧
    (¬ g > 1 → computeTextEmbeddings env prompt g = .ok ce ∧ dim ce = 1) := by
  obtain ⟨c0, rfl⟩ := dim_eq_one ce hdc
  obtain ⟨u0, rfl⟩ := dim_eq_one ue hdu
  constructor
  · intro hg
    refine ⟨?_, by simp [concat0, dim], by simp [concat0, idx], by simp [concat0, idx]⟩
    simp [computeTextEmbeddings, henc, hune, hg]
  · intro hg
    exact ⟨by simp [computeTextEmbeddings, henc, hg], hdc⟩

/-- Witness for C1 at the concrete environment, for guidance 7.5 and
guidance 1. -/
theorem claim_c1_witness :
    (computeTextEmbeddings envW "a prompt" 7.5 = .ok (concat0 embW embW) ∧
      dim (concat0 embW embW) = 2) ∧
    (computeTextEmbeddings envW "a prompt" 1 = .ok embW ∧ dim embW = 1) := by
  have h := claim_c1 envW "a prompt" 7.5 embW embW rfl rfl rfl rfl
  have h2 := claim_c1 envW "a prompt" 1 embW embW rfl rfl rfl rfl
  have ha := h.1 (by norm_num)
  have hb := h2.2 (by norm_num)
  exact ⟨⟨ha.1, ha.2.1⟩, hb⟩

/-- C2: in a loop iteration with guidance_scale > 1.0 the latent advanced
through scheduler.step is computed from the noise prediction
`uncond + guidance_scale * (cond - uncond)`, where uncond and cond are the
denoiser's outputs for batch entries 0 and 1; with guidance_scale <= 1.0
the denoiser's raw output is used unchanged. -/
theorem claim_c2 (env : SDEnv) (g eta : ℚ) (N : ℕ) (server token : String)
    (pid : ℕ) (emb : NDArr) (sigmas : List ℚ) (i : ℕ) (t : ℤ)
    (rest : List (ℕ × ℤ)) (latents np : NDArr) :
    (g > 1 →
      env.unet (scaledInput env sigmas i (stack2 latents)) t emb = .ok np →
      env.httpPut i (putUrl server pid token) (reportedPercent N i) = .ok () →
      sdLoop env g eta N server token pid emb sigmas ((i, t) :: rest) latents =
        Except.map
          (fun p => (p.1, (⟨putUrl server pid token, reportedPercent N i⟩ : PutCall) :: p.2))
          (sdLoop env g eta N server token pid emb sigmas rest
            (env.scheduler.step
              (addA (idx np 0) (smulA g (subA (idx np 1) (idx np 0))))
              (schedTimeArg env.scheduler i t) latents (etaKwarg env.scheduler eta)))) ∧
    (¬ g > 1 →
      env.unet (scaledInput env sigmas i latents) t emb = .ok np →
      env.httpPut i (putUrl server pid token) (reportedPercent N i) = .ok () →
      sdLoop env g eta N server token pid emb sigmas ((i, t) :: rest) latents =
        Except.map
          (fun p => (p.1, (⟨putUrl server pid token, reportedPercent N i⟩ : PutCall) :: p.2))
          (sdLoop env g eta N server token pid emb sigmas rest
            (env.scheduler.step np
              (schedTimeArg env.scheduler i t) latents (etaKwarg env.scheduler eta)))) := by
  constructor
  · intro hg hu hp
    simp only [sdLoop, latentModelInput, guidedNoisePred, if_pos hg, hu, hp]
    cases hres : sdLoop env g eta N server token pid emb sigmas rest
        (env.scheduler.step
          (addA (idx np 0) (smulA g (subA (idx np 1) (idx np 0))))
          (schedTimeArg env.scheduler i t) latents (etaKwarg env.scheduler eta)) with
    | error e => simp [Except.map]
    | ok pr => obtain ⟨lat, calls⟩ := pr; simp [Except.map]
  · intro hg hu hp
    simp only [sdLoop, latentModelInput, guidedNoisePred, if_neg hg, hu, hp]
    cases hres : sdLoop env g eta N server token pid emb sigmas rest
        (env.scheduler.step np
          (schedTimeArg env.scheduler i t) latents (etaKwarg env.scheduler eta)) with
    | error e => simp [Except.map]
    | ok pr => obtain ⟨lat, calls⟩ := pr; simp [Except.map]

/-- Witness for C2 at the concrete environment: one guided and one
unguided iteration. -/
theorem claim_c2_witness :
    (sdLoop envW 7.5 0 2 "srv" "tok" 1 embW [1] [(0, 7)] (.scalar 0) =
      Except.map
        (fun p => (p.1, (⟨putUrl "srv" 1 "tok", reportedPercent 2 0⟩ : PutCall) :: p.2))
        (sdLoop envW 7.5 0 2 "srv" "tok" 1 embW [1] []
          (envW.scheduler.step
            (addA (idx npW 0) (smulA 7.5 (subA (idx npW 1) (idx npW 0))))
            (schedTimeArg envW.scheduler 0 7) (.scalar 0) (etaKwarg envW.scheduler 0)))) ∧
    (sdLoop envW 1 0 2 "srv" "tok" 1 embW [1] [(0, 7)] (.scalar 0) =
      Except.map
        (fun p => (p.1, (⟨putUrl "srv" 1 "tok", reportedPercent 2 0⟩ : PutCall) :: p.2))
        (sdLoop envW 1 0 2 "srv" "tok" 1 embW [1] []
          (envW.scheduler.step npW1
            (schedTimeArg envW.scheduler 0 7) (.scalar 0) (etaKwarg envW.scheduler 0)))) :=
  ⟨(claim_c2 envW 7.5 0 2 "srv" "tok" 1 embW [1] 0 7 [] (.scalar 0) npW).1
      (by norm_num) rfl rfl,
   (claim_c2 envW 1 0 2 "srv" "tok" 1 embW [1] 0 7 [] (.scalar 0) npW1).2
      (by norm_num) rfl rfl⟩

/-- C3: the token sequence fed to the text encoder always has length
exactly tokenizer.model_max_length: shorter raw encodings are padded to
that length, longer ones truncated to it. -/
theorem claim_c3 (tk : TokenizerModel) (s : String) :
    (tokenizerCall tk s).length = tk.model_max_length ∧
    dim (idx (tokensNDArr tk s) 0) = tk.model_max_length := by
  have h1 : (tokenizerCall tk s).length = tk.model_max_length := by
    simp only [tokenizerCall, List.length_append, List.length_take, List.length_replicate]
    omega
  refine ⟨h1, ?_⟩
  simp only [tokensNDArr, idx_arr, List.getD_cons_zero, dim_arr, List.length_map]
  simpa using h1

/-- Counterexample to C5 as stated: with num_inference_steps = 1000 the
final iteration (i = 999) reports round(99.9) = 100, which is not
strictly less than 100. -/
theorem claim_c5_counterexample :
    reportedPercent 1000 999 = 100 ∧ ¬ reportedPercent 1000 999 < 100 := by
  have h : reportedPercent 1000 999 = 100 := by
    norm_num [reportedPercent, percentDone, pythonRound]
  exact ⟨h, by rw [h]; omega⟩

/-- C5 amended: the reported percent round((i/N)*100) is monotonically
non-decreasing in the iteration index, is always at most 100, and is
strictly less than 100 on every iteration i < N provided N <= 199; for
N >= 200 the final iterations report exactly 100 (see the
counterexample). -/
theorem claim_c5_amended :
    (∀ N i j : ℕ, i ≤ j → reportedPercent N i ≤ reportedPercent N j) ∧
    (∀ N i : ℕ, i < N → reportedPercent N i ≤ 100) ∧
    (∀ N i : ℕ, N ≤ 199 → i < N → reportedPercent N i < 100) := by
  refine ⟨?_, ?_, ?_⟩
  · intro N i j hij
    apply pythonRound_mono
    simp only [percentDone]
    rcases Nat.eq_zero_or_pos N with hN | hN
    · subst hN; simp
    · have hNq : (0 : ℚ) < (N : ℚ) := by exact_mod_cast hN
      have hq : (i : ℚ) ≤ (j : ℚ) := by exact_mod_cast hij
      gcongr
  · intro N i hiN
    apply pythonRound_le_of_le
    have hNq : (0 : ℚ) < (N : ℚ) := by exact_mod_cast Nat.pos_of_ne_zero (by omega)
    have hq : (i : ℚ) ≤ (N : ℚ) := by exact_mod_cast Nat.le_of_lt hiN
    simp only [percentDone]
    rw [div_mul_eq_mul_div, div_le_iff₀ hNq]
    push_cast
    nlinarith
  · intro N i hN199 hiN
    apply pythonRound_lt_of_lt
    have hNq : (0 : ℚ) < (N : ℚ) := by exact_mod_cast Nat.pos_of_ne_zero (by omega)
    have hq : (i : ℚ) + 1 ≤ (N : ℚ) := by exact_mod_cast hiN
    have h199 : (N : ℚ) ≤ 199 := by exact_mod_cast hN199
    simp only [percentDone]
    rw [div_mul_eq_mul_div, div_lt_iff₀ hNq]
    push_cast
    nlinarith

/-- Witness for the amended C5 at the default step count 32. -/
theorem claim_c5_witness :
    reportedPercent 32 3 ≤ reportedPercent 32 5 ∧
    reportedPercent 32 31 ≤ 100 ∧ reportedPercent 32 31 < 100 :=
  ⟨claim_c5_amended.1 32 3 5 (by norm_num),
   claim_c5_amended.2.1 32 31 (by norm_num),
   claim_c5_amended.2.2 32 31 (by norm_num) (by norm_num)⟩

/-- Counterexample to C6 as stated: two schedulers with identical declared
set_timesteps/step parameter lists receive different step
index-versus-raw-time treatment, so that choice is not detected from the
scheduler's declared calling convention; it is decided by the hardcoded
isinstance check on LMSDiscreteScheduler. -/
theorem claim_c6_counterexample :
    schedIntroA.set_timesteps_param_names = schedIntroB.set_timesteps_param_names ∧
    schedIntroA.step_param_names = schedIntroB.step_param_names ∧
    schedTimeArg schedIntroA 0 5 ≠ schedTimeArg schedIntroB 0 5 := by
  refine ⟨rfl, rfl, ?_⟩
  simp [schedTimeArg, schedIntroA, schedIntroB]

/-- C6 amended: the optional offset and eta arguments are passed iff the
scheduler's declared set_timesteps/step parameters accept them (true
parameter introspection), but the choice between passing a step index and
a raw timestep to scheduler.step is made by a hardcoded isinstance check
on LMSDiscreteScheduler, not from the declared calling convention. -/
theorem claim_c6_amended (sch : Scheduler) (eta : ℚ) (i : ℕ) (t : ℤ) :
    ("offset" ∈ sch.set_timesteps_param_names → offsetKwarg sch = some 1) ∧
    ("offset" ∉ sch.set_timesteps_param_names → offsetKwarg sch = none) ∧
    ("eta" ∈ sch.step_param_names → etaKwarg sch eta = some eta) ∧
    ("eta" ∉ sch.step_param_names → etaKwarg sch eta = none) ∧
    (sch.isLMS = true → schedTimeArg sch i t = Sum.inl i) ∧
    (sch.isLMS = false → schedTimeArg sch i t = Sum.inr t) := by
  refine ⟨?_, ?_, ?_, ?_, ?_, ?_⟩ <;>
    intro h <;> simp [offsetKwarg, etaKwarg, schedTimeArg, h]

/-- Witness for the amended C6 at the two concrete schedulers. -/
theorem claim_c6_witness :
    offsetKwarg schedIntroA = some 1 ∧ etaKwarg schedIntroA 0 = some 0 ∧
    schedTimeArg schedIntroA 0 5 = Sum.inl 0 ∧
    schedTimeArg schedIntroB 0 5 = Sum.inr 5 :=
  ⟨(claim_c6_amended schedIntroA 0 0 5).1 (by simp [schedIntroA]),
   (claim_c6_amended schedIntroA 0 0 5).2.2.1 (by simp [schedIntroA]),
   (claim_c6_amended schedIntroA 0 0 5).2.2.2.2.1 (by simp [schedIntroA]),
   (claim_c6_amended schedIntroB 0 0 5).2.2.2.2.2 (by simp [schedIntroB, schedIntroA])⟩

/-- C7: any failing step aborts the run with no output file.  Part one: a
model-load failure propagates.  Part two: a text-encoder forward-pass
failure propagates.  Part three: if the run produced an output at all,
then the text conditioning, every per-iteration denoiser forward pass,
every per-iteration progress PUT and the decoder forward pass had all
succeeded; contrapositively, an unhandled error in any of them (in
particular a network error during progress reporting) aborts the
generation before the image is written. -/
theorem claim_c7 :
    (∀ (env : SDEnv) (args : MainArgs) (e : Err),
      env.loadOk = .error e → mainRun env args = .error e) ∧
    (∀ (env : SDEnv) (args : MainArgs) (e : Err),
      env.loadOk = .ok () →
      env.text_encoder (tokensNDArr env.tokenizer args.prompt) = .error e →
      mainRun env args = .error e) ∧
    (∀ (env : SDEnv) (args : MainArgs) (files : List (String × NDArr))
      (calls : List PutCall),
      mainRun env args = .ok (files, calls) →
      ∃ emb lat vaeOut,
        computeTextEmbeddings env args.prompt args.guidance_scale = .ok emb ∧
        (∀ p ∈ (env.scheduler.set_timesteps args.num_inference_steps
            (offsetKwarg env.scheduler)).timesteps.enum,
          env.httpPut p.1 (putUrl "" 0 "") (reportedPercent args.num_inference_steps p.1) =
            .ok ()) ∧
        (∀ p ∈ (env.scheduler.set_timesteps args.num_inference_steps
            (offsetKwarg env.scheduler)).timesteps.enum,
          ∃ lmi np, env.unet lmi p.2 emb = .ok np) ∧
        env.vae (expandDims0 lat) = .ok vaeOut) := by
  refine ⟨?_, ?_, ?_⟩
  · intro env args e h
    simp [mainRun, h]
  · intro env args e hload henc
    simp [mainRun, hload, callSD, computeTextEmbeddings, henc]
  · intro env args files calls h
    obtain ⟨hload, image, hcall, hfiles⟩ := mainRun_ok_inv env args files calls h
    obtain ⟨emb, lat, vaeOut, hemb, hloop, hvae, him⟩ :=
      callSD_ok_inv env args.prompt args.num_inference_steps args.guidance_scale
        args.eta "" "" 0 args.seed image calls hcall
    exact ⟨emb, lat, vaeOut, hemb,
      fun p hp => sdLoop_ok_puts env args.guidance_scale args.eta
        args.num_inference_steps "" "" 0 emb _ _ _ _ _ hloop p hp,
      fun p hp => sdLoop_ok_unet env args.guidance_scale args.eta
        args.num_inference_steps "" "" 0 emb _ _ _ _ _ hloop p hp,
      hvae⟩

/-- The successful one-step witness run of main. -/
theorem mainRun_envW :
    mainRun envW argsW = .ok ([("output.png", decodeImage imgW)], callsW) := by
  norm_num [mainRun, callSD, computeTextEmbeddings, sdLoop, envW, tokW, schedW,
    argsW, callsW, List.replicate, List.enum, List.enumFrom, latentModelInput,
    guidedNoisePred]

/-- Witness for C7: a load failure and an encoder failure propagate to the
run's result, and in the successful one-step run the progress PUT had
succeeded. -/
theorem claim_c7_witness :
    mainRun envLoadErr argsW = .error "load failed" ∧
    mainRun envEncErr argsW = .error "infer failed" ∧
    (∃ emb lat vaeOut,
      computeTextEmbeddings envW argsW.prompt argsW.guidance_scale = .ok emb ∧
      (∀ p ∈ (envW.scheduler.set_timesteps argsW.num_inference_steps
          (offsetKwarg envW.scheduler)).timesteps.enum,
        envW.httpPut p.1 (putUrl "" 0 "") (reportedPercent argsW.num_inference_steps p.1) =
          .ok ()) ∧
      (∀ p ∈ (envW.scheduler.set_timesteps argsW.num_inference_steps
          (offsetKwarg envW.scheduler)).timesteps.enum,
        ∃ lmi np, envW.unet lmi p.2 emb = .ok np) ∧
      envW.vae (expandDims0 lat) = .ok vaeOut) :=
  ⟨claim_c7.1 envLoadErr argsW "load failed" rfl,
   claim_c7.2.1 envEncErr argsW "infer failed" rfl rfl,
   claim_c7.2.2 envW argsW [("output.png", decodeImage imgW)] callsW mainRun_envW⟩

/-- C9: in the standalone command-line mode, the pipeline runs with the
default server="", token="" and prompt id 0, so every loop iteration still
attempts the progress PUT, and every attempted PUT of a successful run
goes to the URL "/prompt/0?token=" (one PUT per enumerated timestep, in
order). -/
theorem claim_c9 (env : SDEnv) (args : MainArgs) (files : List (String × NDArr))
    (calls : List PutCall) (hrun : mainRun env args = .ok (files, calls)) :
    calls = (env.scheduler.set_timesteps args.num_inference_steps
        (offsetKwarg env.scheduler)).timesteps.enum.map
      (fun p => ⟨"/prompt/0?token=", reportedPercent args.num_inference_steps p.1⟩) ∧
    ∀ c ∈ calls, c.url = "/prompt/0?token=" := by
  obtain ⟨hload, image, hcall, hfiles⟩ := mainRun_ok_inv env args files calls hrun
  obtain ⟨emb, lat, vaeOut, hemb, hloop, hvae, him⟩ :=
    callSD_ok_inv env args.prompt args.num_inference_steps args.guidance_scale
      args.eta "" "" 0 args.seed image calls hcall
  have hcalls := sdLoop_ok_calls env args.guidance_scale args.eta
    args.num_inference_steps "" "" 0 emb _ _ _ _ _ hloop
  have hurl : putUrl "" 0 "" = "/prompt/0?token=" := rfl
  rw [hurl] at hcalls
  refine ⟨hcalls, ?_⟩
  intro c hc
  rw [hcalls] at hc
  obtain ⟨p, _, rfl⟩ := List.mem_map.mp hc
  rfl

/-- Witness for C9 at the successful one-step witness run. -/
theorem claim_c9_witness :
    callsW = (envW.scheduler.set_timesteps argsW.num_inference_steps
        (offsetKwarg envW.scheduler)).timesteps.enum.map
      (fun p => ⟨"/prompt/0?token=", reportedPercent argsW.num_inference_steps p.1⟩) ∧
    ∀ c ∈ callsW, c.url = "/prompt/0?token=" :=
  claim_c9 envW argsW [("output.png", decodeImage imgW)] callsW mainRun_envW

/-- The successful one-step witness run of the pipeline body. -/
theorem callSD_envW :
    callSD envW "a prompt" 1 1 0 "" "" 0 (some 42) =
      .ok (decodeImage imgW, callsW) := by
  norm_num [callSD, computeTextEmbeddings, sdLoop, envW, tokW, schedW, callsW,
    List.replicate, List.enum, List.enumFrom, latentModelInput, guidedNoisePred]

/-- C4: part one: every scalar of the decoded image is a natural number in
[0, 255].  Part two: if the decoder output has 3 channels then every
in-range pixel of the decoded image has exactly 3 channels.  Part three:
the image a successful run returns is obtained by running the decoder once
on the final latent and post-processing its output with the fixed chain
(rescale x/2 + 0.5, clip to [0, 1], transpose channel-first to
height-width-channel, reverse the channel order, multiply by 255, convert
to uint8) — in particular it is a deterministic function of the decoder
output. -/
theorem claim_c4 :
    (∀ x : NDArr, AllScalars (fun q => ∃ n : ℕ, q = (n : ℚ) ∧ n ≤ 255) (decodeImage x)) ∧
    (∀ x : NDArr, dim (idx x 0) = 3 →
      ∀ i, i < dim (idx (idx x 0) 0) →
      ∀ j, j < dim (idx (idx (idx x 0) 0) 0) →
        dim (idx (idx (decodeImage x) i) j) = 3) ∧
    (∀ (env : SDEnv) (prompt : String) (N : ℕ) (g eta : ℚ) (server token : String)
      (pid : ℕ) (seed : Option ℕ) (image : NDArr) (calls : List PutCall),
      callSD env prompt N g eta server token pid seed = .ok (image, calls) →
      ∃ lat vaeOut, env.vae (expandDims0 lat) = .ok vaeOut ∧
        image = decodeImage vaeOut) := by
  refine ⟨decodeImage_scalars, ?_, ?_⟩
  · intro x h3 i hi j hj
    rw [dim_idx_idx_decodeImage x i j hi hj, h3]
  · intro env prompt N g eta server token pid seed image calls h
    obtain ⟨emb, lat, vaeOut, hemb, hloop, hvae, him⟩ :=
      callSD_ok_inv env prompt N g eta server token pid seed image calls h
    exact ⟨lat, vaeOut, hvae, him⟩

/-- Witness for C4 at the concrete decoder output and the successful
witness run. -/
theorem claim_c4_witness :
    AllScalars (fun q => ∃ n : ℕ, q = (n : ℚ) ∧ n ≤ 255) (decodeImage imgW) ∧
    dim (idx (idx (decodeImage imgW) 0) 0) = 3 ∧
    (∃ lat vaeOut, envW.vae (expandDims0 lat) = .ok vaeOut ∧
      decodeImage imgW = decodeImage vaeOut) :=
  ⟨claim_c4.1 imgW,
   claim_c4.2.1 imgW rfl 0 (by decide) 0 (by decide),
   claim_c4.2.2 envW "a prompt" 1 1 0 "" "" 0 (some 42) (decodeImage imgW) callsW
     callSD_envW⟩

/-- C8: for the invocation prompt="a red cube", num_inference_steps=2,
seed=42, guidance_scale=1.0, a successful run makes exactly one progress
report per iteration over the two scheduler timesteps (the loop runs
exactly 2 iterations), computes the prompt embedding with no
concatenation, runs the decoder once, and writes exactly one output file
holding the post-processed decoder output, which has one pixel row per
decoder row, one entry per decoder column and exactly 3 channels when the
decoder output has 3 channels (the model's native resolution).  That the
scheduler yields 2 timesteps for 2 requested steps, and that the external
calls succeed at all (models loaded and compiled), are properties of the
external components and enter as hypotheses. -/
theorem claim_c8 (env : SDEnv) (files : List (String × NDArr)) (calls : List PutCall)
    (hts : (env.scheduler.set_timesteps 2 (offsetKwarg env.scheduler)).timesteps.length = 2)
    (hrun : mainRun env ⟨"a red cube", 2, 1, 0, some 42, "output.png"⟩ = .ok (files, calls)) :
    calls.length = 2 ∧
    (∃ ce, env.text_encoder (tokensNDArr env.tokenizer "a red cube") = .ok ce ∧
      computeTextEmbeddings env "a red cube" 1 = .ok ce) ∧
    (∃ lat vaeOut, env.vae (expandDims0 lat) = .ok vaeOut ∧
      files = [("output.png", decodeImage vaeOut)] ∧
      (dim (idx vaeOut 0) = 3 →
        dim (decodeImage vaeOut) = dim (idx (idx vaeOut 0) 0) ∧
        ∀ i, i < dim (idx (idx vaeOut 0) 0) →
        ∀ j, j < dim (idx (idx (idx vaeOut 0) 0) 0) →
          dim (idx (idx (decodeImage vaeOut) i) j) = 3)) := by
  obtain ⟨hload, image, hcall, hfiles⟩ :=
    mainRun_ok_inv env ⟨"a red cube", 2, 1, 0, some 42, "output.png"⟩ files calls hrun
  obtain ⟨emb, lat, vaeOut, hemb, hloop, hvae, him⟩ :=
    callSD_ok_inv env "a red cube" 2 1 0 "" "" 0 (some 42) image calls hcall
  refine ⟨?_, ?_, ?_⟩
  · have hcalls := sdLoop_ok_calls env 1 0 2 "" "" 0 emb _ _ _ _ _ hloop
    rw [hcalls]
    simp [hts]
  · have hemb' := hemb
    simp only [computeTextEmbeddings] at hemb'
    split at hemb'
    · simp at hemb'
    next ce hce =>
      rw [if_neg (by norm_num : ¬ (1 : ℚ) > 1)] at hemb'
      have hceemb : ce = emb := Except.ok.inj hemb'
      subst hceemb
      exact ⟨ce, hce, hemb⟩
  · refine ⟨lat, vaeOut, hvae, ?_, ?_⟩
    · rw [hfiles, him]
    · intro h3
      refine ⟨dim_decodeImage vaeOut, ?_⟩
      intro i hi j hj
      rw [dim_idx_idx_decodeImage vaeOut i j hi hj, h3]

/-- The successful two-step witness run of main on the C8 arguments. -/
theorem mainRun_envW_args8 :
    mainRun envW args8 = .ok ([("output.png", decodeImage imgW)], calls8) := by
  norm_num [mainRun, callSD, computeTextEmbeddings, sdLoop, envW, tokW, schedW,
    args8, calls8, List.replicate, List.enum, List.enumFrom, latentModelInput,
    guidedNoisePred]

/-- Witness for C8 at the concrete environment. -/
theorem claim_c8_witness :
    calls8.length = 2 ∧
    (∃ ce, envW.text_encoder (tokensNDArr envW.tokenizer "a red cube") = .ok ce ∧
      computeTextEmbeddings envW "a red cube" 1 = .ok ce) ∧
    (∃ lat vaeOut, envW.vae (expandDims0 lat) = .ok vaeOut ∧
      [("output.png", decodeImage imgW)] = [("output.png", decodeImage vaeOut)] ∧
      (dim (idx vaeOut 0) = 3 →
        dim (decodeImage vaeOut) = dim (idx (idx vaeOut 0) 0) ∧
        ∀ i, i < dim (idx (idx vaeOut 0) 0) →
        ∀ j, j < dim (idx (idx (idx vaeOut 0) 0) 0) →
          dim (idx (idx (decodeImage vaeOut) i) j) = 3)) :=
  claim_c8 envW [("output.png", decodeImage imgW)] calls8 (by decide) mainRun_envW_args8

/-- C10: run_stable_diffusion always invokes the pipeline with
guidance_scale fixed at 7.5 and eta fixed at 0.0 and always seeds the
process RNG with the supplied seed before sampling (part one); since
7.5 > 1.0, classifier-free guidance is always enabled in that mode: the
embedding batch has exactly 2 entries (part two) and the latent is
duplicated by np.stack each iteration (part three). -/
theorem claim_c10 (env : SDEnv) (prompt : String) (iterations : ℕ) (seed : ℕ)
    (output server token : String) (pid : ℕ) (ce ue : NDArr)
    (henc : env.text_encoder (tokensNDArr env.tokenizer prompt) = .ok ce)
    (hune : env.text_encoder (tokensNDArr env.tokenizer "") = .ok ue)
    (hdc : dim ce = 1) (hdu : dim ue = 1) :
    (env.loadOk = .ok () →
      runStableDiffusion env prompt iterations seed output server token pid =
        Except.map (fun p => ([(output, p.1)], p.2))
          (callSD env prompt iterations (7.5 : ℚ) 0 server token pid (some seed))) ∧
    (computeTextEmbeddings env prompt 7.5 = .ok (concat0 ue ce) ∧
      dim (concat0 ue ce) = 2) ∧
    (∀ lat, latentModelInput (7.5 : ℚ) lat = stack2 lat) := by
  refine ⟨?_, ?_, ?_⟩
  · intro h
    simp only [runStableDiffusion, h]
    cases hc : callSD env prompt iterations (7.5 : ℚ) 0 server token pid (some seed) with
    | error e => simp [Except.map]
    | ok pr => obtain ⟨im, cs⟩ := pr; simp [Except.map]
  · obtain ⟨c0, rfl⟩ := dim_eq_one ce hdc
    obtain ⟨u0, rfl⟩ := dim_eq_one ue hdu
    constructor
    · simp [computeTextEmbeddings, henc, hune, show (7.5 : ℚ) > 1 by norm_num]
    · simp [concat0, dim]
  · intro lat
    simp [latentModelInput, show (7.5 : ℚ) > 1 by norm_num]

/-- Witness for C10 at the concrete environment. -/
theorem claim_c10_witness :
    (runStableDiffusion envW "a prompt" 1 42 "out.png" "srv" "tok" 3 =
      Except.map (fun p => ([("out.png", p.1)], p.2))
        (callSD envW "a prompt" 1 (7.5 : ℚ) 0 "srv" "tok" 3 (some 42))) ∧
    (computeTextEmbeddings envW "a prompt" 7.5 = .ok (concat0 embW embW) ∧
      dim (concat0 embW embW) = 2) ∧
    latentModelInput (7.5 : ℚ) (.scalar 0) = stack2 (.scalar 0) := by
  have h := claim_c10 envW "a prompt" 1 42 "out.png" "srv" "tok" 3 embW embW rfl rfl rfl rfl
  exact ⟨h.1 rfl, h.2.1, h.2.2 (.scalar 0)⟩
